import Mathlib

/-!
Shallow embedding of `convert_acl.py` (Quobyte ACL 2.x → 3.x converter).

Strings from the Python source are modelled as `List Char` (`Str`), and
Python's `str.split(sep)` for a one-character separator as `splitOn`.
`os.linesep` is modelled as the single character `'\n'` (the POSIX value,
which is what the tool runs on).
-/

set_option maxHeartbeats 1000000
set_option maxRecDepth 100000

abbrev Str := List Char

/-- Python `str.split(sep)` for a single-character separator:
`splitOn c s` never returns `[]`; splitting the empty string gives `[[]]`. -/
def splitOn (c : Char) : Str → List Str
  | [] => [[]]
  | x :: xs =>
    match splitOn c xs with
    | [] => [[]]
    | h :: t => if x = c then [] :: h :: t else (x :: h) :: t

/-- Joins pieces with the separator character: the inverse of `splitOn`. -/
def joinSep (c : Char) : List Str → Str
  | [] => []
  | [s] => s
  | s :: rest => s ++ c :: joinSep c rest

theorem splitOn_ne_nil (c : Char) (s : Str) : splitOn c s ≠ [] := by
  cases s with
  | nil => simp [splitOn]
  | cons x xs =>
    simp only [splitOn]
    cases h : splitOn c xs with
    | nil => simp
    | cons a t =>
      by_cases hx : x = c <;> simp [hx]

theorem splitOn_not_mem {c : Char} {s : Str} (h : c ∉ s) : splitOn c s = [s] := by
  induction s with
  | nil => rfl
  | cons x xs ih =>
    have hx : x ≠ c := fun hxc => h (hxc ▸ List.mem_cons_self x xs)
    have hxs : c ∉ xs := fun hc => h (List.mem_cons_of_mem x hc)
    simp only [splitOn, ih hxs]
    simp [hx]

theorem splitOn_sep_cons {c : Char} {a : Str} (b : Str) (h : c ∉ a) :
    splitOn c (a ++ c :: b) = a :: splitOn c b := by
  induction a with
  | nil =>
    simp only [List.nil_append, splitOn]
    cases hb : splitOn c b with
    | nil => exact absurd hb (splitOn_ne_nil c b)
    | cons h0 t => simp
  | cons x a' ih =>
    have hx : x ≠ c := fun hxc => h (hxc ▸ List.mem_cons_self x a')
    have ha' : c ∉ a' := fun hc => h (List.mem_cons_of_mem x hc)
    simp only [List.cons_append, splitOn, List.append_eq]
    rw [ih ha']
    simp [hx]

theorem splitOn_length (c : Char) (s : Str) :
    (splitOn c s).length = s.countP (fun x => x == c) + 1 := by
  induction s with
  | nil => simp [splitOn]
  | cons x xs ih =>
    simp only [splitOn]
    cases h : splitOn c xs with
    | nil => exact absurd h (splitOn_ne_nil c xs)
    | cons h0 t =>
      rw [h] at ih
      by_cases hx : x = c
      · subst hx
        simp [List.countP_cons, ← ih]
      · simp [hx, List.countP_cons, ← ih]

theorem joinSep_cons_cons (c : Char) (x : Char) (h : Str) (t : List Str) :
    joinSep c ((x :: h) :: t) = x :: joinSep c (h :: t) := by
  cases t with
  | nil => rfl
  | cons t0 t' => simp [joinSep]

theorem joinSep_splitOn (c : Char) (s : Str) : joinSep c (splitOn c s) = s := by
  induction s with
  | nil => rfl
  | cons x xs ih =>
    simp only [splitOn]
    cases h : splitOn c xs with
    | nil => exact absurd h (splitOn_ne_nil c xs)
    | cons h0 t =>
      rw [h] at ih
      by_cases hx : x = c
      · subst hx
        simp only [if_pos rfl, joinSep, List.nil_append, ih]
      · simp only [if_neg hx, joinSep_cons_cons, ih]

/-- `os.linesep` on the POSIX systems this tool targets. -/
def linesep : Char := '\n'

def SPECIAL_PRINCIPALS : List Str := ["OWNER@".toList, "GROUP@".toList, "EVERYONE@".toList]

/-- Represents a single line of a nfs4_getacl output
(`TextAce.__init__` stores the four colon-separated fields). -/
structure TextAce where
  type : Str
  flags : Str
  principal : Str
  permissions : Str
deriving DecidableEq, Repr

/-- `TextAce.__init__`: split on `":"` and assert exactly four fields;
`none` models the `AssertionError` raised when the assert fails. -/
def TextAce.parse (s : Str) : Option TextAce :=
  match splitOn ':' s with
  | [t, f, p, m] => some ⟨t, f, p, m⟩
  | _ => none

def TextAce.hasInheritanceFlag (ace : TextAce) : Bool :=
  ['i', 'f', 'd'].any (fun flag => ace.flags.contains flag)

def TextAce.hasSpecialPrincipal (ace : TextAce) : Bool :=
  SPECIAL_PRINCIPALS.any (fun principal => ace.principal == principal)

def TextAce.isAllowAce (ace : TextAce) : Bool :=
  ace.type == "A".toList

def TextAce.isDenyAce (ace : TextAce) : Bool :=
  ace.type == "D".toList

/-- `TextAce.toString`: the four fields joined by `":"` plus `os.linesep`. -/
def TextAce.toString (ace : TextAce) : Str :=
  ace.type ++ ':' :: (ace.flags ++ ':' :: (ace.principal ++ ':' :: (ace.permissions ++ [linesep])))

theorem parse_fields {s : Str} {ace : TextAce} (h : TextAce.parse s = some ace) :
    splitOn ':' s = [ace.type, ace.flags, ace.principal, ace.permissions] := by
  unfold TextAce.parse at h
  split at h
  · rename_i t f p m heq
    cases h
    exact heq
  · exact absurd h (by simp)

/-- Round-trip at the ACE level: serializing a parsed line reproduces the
line followed by the line terminator. -/
theorem parse_toString {s : Str} {ace : TextAce} (h : TextAce.parse s = some ace) :
    ace.toString = s ++ [linesep] := by
  have hj := joinSep_splitOn ':' s
  rw [parse_fields h] at hj
  simp only [joinSep] at hj
  rw [TextAce.toString, ← hj]
  simp [List.append_assoc]

/-- The two Python exception kinds `Acl.convert` and `TextAce.__init__` can
raise: `RuntimeError` with a message (a rule violation) and `AssertionError`
(whose `str` is the empty string). -/
inductive AclError where
  | ruleViolation (msg : Str)
  | assertionError
deriving DecidableEq, Repr

/-- `str(exception)` as used by `callOnError`. -/
def AclError.message : AclError → Str
  | .ruleViolation msg => msg
  | .assertionError => []

/-- Stores the output of nfs4_getacl as individual ACEs
(`Acl.__init__` / `Acl.convert` state: `_aces` and `_added_aces`). -/
structure Acl where
  aces : List TextAce
  added_aces : List TextAce
deriving DecidableEq, Repr

/-- The parsing loop of `Acl.__init__`: each kept line must parse, otherwise
the `assert` in `TextAce.__init__` fires. -/
def parseAces : List Str → Option (List TextAce)
  | [] => some []
  | line :: rest =>
    match TextAce.parse line with
    | none => none
    | some ace =>
      match parseAces rest with
      | none => none
      | some aces => some (ace :: aces)

/-- `Acl.__init__`: split the text on `os.linesep`, skip empty lines and
lines starting with `"#"`, parse the rest. -/
def Acl.parse (s : Str) : Except AclError Acl :=
  match parseAces ((splitOn linesep s).filter
      (fun line => !line.isEmpty && !(line.head? == some '#'))) with
  | some aces => .ok ⟨aces, []⟩
  | none => .error .assertionError

/-- The `num_aces` computed in `Acl.convert`: how many of the three special
principals have at least one inheritance-flagged ACE. -/
def Acl.coveredCount (acl : Acl) : Nat :=
  (SPECIAL_PRINCIPALS.filter (fun principal =>
    decide (0 < acl.aces.countP (fun ace =>
      ace.hasInheritanceFlag && ace.principal == principal)))).length

/-- The per-principal check of `Acl.convert`: more than one non-inherited
allow ACE, or more than one non-inherited deny ACE. -/
def tooManyRules (acl : Acl) (principal : Str) : Bool :=
  decide (1 < acl.aces.countP (fun ace =>
    ace.principal == principal && ace.isAllowAce && !ace.hasInheritanceFlag)) ||
  decide (1 < acl.aces.countP (fun ace =>
    ace.principal == principal && ace.isDenyAce && !ace.hasInheritanceFlag))

def inheritanceErrMsg : Str :=
  "Cannot convert ACL as inheritance is not set for all special principals".toList

def tooManyErrMsg (principal : Str) : Str :=
  "Cannot convert ACL as there are too many rules for principal ".toList ++ principal ++ " ".toList

/-- The argument of the `TextAce` constructor call in `Acl.convert`:
`"{}:fdi{}:{}:{}".format(type, flags, principal, permissions)`. -/
def synthAceString (ace : TextAce) : Str :=
  ace.type ++ ':' :: ("fdi".toList ++ ace.flags ++ ':' :: (ace.principal ++ ':' :: ace.permissions))

/-- The ACE that the synthesis step produces when the embedded format/parse
round trip succeeds. -/
def synthRecord (ace : TextAce) : TextAce :=
  ⟨ace.type, "fdi".toList ++ ace.flags, ace.principal, ace.permissions⟩

/-- The final loop of `Acl.convert`: append one synthesized ACE per allow ACE
with a special principal; `false` marks an `AssertionError` raised while
constructing a synthesized `TextAce` (the appends made so far are kept). -/
def synthLoop (added : List TextAce) : List TextAce → List TextAce × Bool
  | [] => (added, true)
  | ace :: rest =>
    if ace.isAllowAce && ace.hasSpecialPrincipal then
      match TextAce.parse (synthAceString ace) with
      | some new_ace => synthLoop (added ++ [new_ace]) rest
      | none => (added, false)
    else synthLoop added rest

/-- `Acl.convert`: returns the post-call state together with the Python
result (`true` converted, `false` no need to convert, or a raised error). -/
def Acl.convert (acl : Acl) : Acl × Except AclError Bool :=
  if acl.aces.countP (fun ace => ace.hasInheritanceFlag) = 0 then
    (acl, .ok false)
  else if acl.coveredCount = SPECIAL_PRINCIPALS.length then
    (acl, .ok false)
  else if 0 < acl.coveredCount then
    (acl, .error (.ruleViolation inheritanceErrMsg))
  else
    match SPECIAL_PRINCIPALS.find? (fun principal => tooManyRules acl principal) with
    | some principal => (acl, .error (.ruleViolation (tooManyErrMsg principal)))
    | none =>
      match synthLoop acl.added_aces acl.aces with
      | (added, true) => ({ acl with added_aces := added }, .ok true)
      | (added, false) => ({ acl with added_aces := added }, .error .assertionError)

/-- `Acl.toString`: original ACEs in input order, then added ACEs. -/
def Acl.toString (acl : Acl) : Str :=
  (acl.aces.map TextAce.toString).flatten ++ (acl.added_aces.map TextAce.toString).flatten

/-- Messages emitted by `AclConverter` while processing one path
(`callOnError` reports, `_logMessage` prints the dry-run result). -/
inductive Output where
  | errorMsg (path msg : Str)
  | logMsg (msg : Str)
deriving DecidableEq, Repr

/-- The environment `AclConverter` runs against: the filesystem predicates
and the two external commands (ACL source and sink), plus the dry-run flag. -/
structure Env where
  islink : Str → Bool
  isdir : Str → Bool
  getfacl : Str → Except Str Str
  dry_run : Bool
  setfacl : Str → Str → Except Str Unit

/-- `AclConverter._processDirectory`: fetch, parse, convert, then either log
(dry run) or write back; `.error` models an exception escaping the method. -/
def processDirectory (env : Env) (path : Str) : Except AclError (List Output) :=
  match env.getfacl path with
  | .error errtext => .ok [.errorMsg path ("Failed to run nfs4_getfacl: ".toList ++ errtext)]
  | .ok out =>
    match Acl.parse out with
    | .error e => .error e
    | .ok acl =>
      match acl.convert with
      | (_, .error e) => .error e
      | (_, .ok false) => .ok []
      | (acl2, .ok true) =>
        if env.dry_run then
          .ok [.logMsg (path ++ linesep :: acl2.toString)]
        else
          match env.setfacl path acl2.toString with
          | .ok _ => .ok []
          | .error errtext =>
            .ok [.errorMsg path ("Failed to run nfs4_setfacl: ".toList ++ errtext)]

/-- `AclConverter.processEntry`: `true` exactly when the path is a real
non-symlink directory and `_processDirectory` raised no exception; a raised
exception is reported via `callOnError` and yields `false`. -/
def processEntry (env : Env) (path : Str) : Bool × List Output :=
  if !env.islink path && env.isdir path then
    match processDirectory env path with
    | .ok outs => (true, outs)
    | .error e => (false, [.errorMsg path e.message])
  else (false, [])

instance {ε α : Type} [DecidableEq ε] [DecidableEq α] : DecidableEq (Except ε α) :=
  fun a b => match a, b with
  | .ok x, .ok y =>
    if h : x = y then .isTrue (by rw [h]) else .isFalse (fun hc => by cases hc; exact h rfl)
  | .error e, .error f =>
    if h : e = f then .isTrue (by rw [h]) else .isFalse (fun hc => by cases hc; exact h rfl)
  | .ok _, .error _ => .isFalse (fun hc => by cases hc)
  | .error _, .ok _ => .isFalse (fun hc => by cases hc)

/-- The five-line example ACL from the module docstring. -/
def exampleText : Str :=
  "A::OWNER@:rwaDxtnNcy\nA:g:GROUP@:rxtncy\nA:g:EVERYONE@:rxtncy\nA:fdg:readers:rxtncy\nA:fdg:writers:rwaDxtTnNcCy\n".toList

def exampleAces : List TextAce :=
  [⟨"A".toList, "".toList, "OWNER@".toList, "rwaDxtnNcy".toList⟩,
   ⟨"A".toList, "g".toList, "GROUP@".toList, "rxtncy".toList⟩,
   ⟨"A".toList, "g".toList, "EVERYONE@".toList, "rxtncy".toList⟩,
   ⟨"A".toList, "fdg".toList, "readers".toList, "rxtncy".toList⟩,
   ⟨"A".toList, "fdg".toList, "writers".toList, "rwaDxtTnNcCy".toList⟩]

def exampleAddedAces : List TextAce :=
  [⟨"A".toList, "fdi".toList, "OWNER@".toList, "rwaDxtnNcy".toList⟩,
   ⟨"A".toList, "fdig".toList, "GROUP@".toList, "rxtncy".toList⟩,
   ⟨"A".toList, "fdig".toList, "EVERYONE@".toList, "rxtncy".toList⟩]

def exampleAddedText : Str :=
  "A:fdi:OWNER@:rwaDxtnNcy\nA:fdig:GROUP@:rxtncy\nA:fdig:EVERYONE@:rxtncy\n".toList

theorem hasSpecial_principal_mem {ace : TextAce} (h : ace.hasSpecialPrincipal = true) :
    ace.principal ∈ SPECIAL_PRINCIPALS := by
  unfold TextAce.hasSpecialPrincipal at h
  rw [List.any_eq_true] at h
  obtain ⟨p, hmem, hbeq⟩ := h
  rw [beq_iff_eq] at hbeq
  exact hbeq ▸ hmem

theorem mem_specials_no_colon {p : Str} (hp : p ∈ SPECIAL_PRINCIPALS) : ':' ∉ p := by
  simp only [SPECIAL_PRINCIPALS, List.mem_cons, List.not_mem_nil, or_false] at hp
  rcases hp with h | h | h <;> subst h <;> decide

theorem countP_colon_zero {l : Str} (h : ':' ∉ l) :
    l.countP (fun x => x == ':') = 0 := by
  rw [List.countP_eq_zero]
  intro a ha
  simp only [beq_iff_eq]
  intro hc
  exact h (hc ▸ ha)

theorem not_colon_of_countP_zero {l : Str} (h : l.countP (fun x => x == ':') = 0) :
    ':' ∉ l := by
  rw [List.countP_eq_zero] at h
  intro hc
  exact absurd (by simp : ((':' : Char) == ':') = true) (h ':' hc)

/-- When `Acl.convert` synthesizes an ACE for an allow ACE with a special
principal and the embedded re-parse succeeds, the new ACE is exactly the
original with `"fdi"` prepended to its flags. -/
theorem parse_synth {ace new_ace : TextAce}
    (ht : ace.isAllowAce = true) (hp : ace.hasSpecialPrincipal = true)
    (h : TextAce.parse (synthAceString ace) = some new_ace) :
    new_ace = synthRecord ace := by
  have htype : ace.type = "A".toList := by
    unfold TextAce.isAllowAce at ht
    exact beq_iff_eq.mp ht
  have htc : ':' ∉ ace.type := by rw [htype]; decide
  have hpc : ':' ∉ ace.principal := mem_specials_no_colon (hasSpecial_principal_mem hp)
  have hs := parse_fields h
  have hlen : (splitOn ':' (synthAceString ace)).length = 4 := by rw [hs]; rfl
  rw [splitOn_length] at hlen
  have hcount : (synthAceString ace).countP (fun x => x == ':') = 3 := by omega
  unfold synthAceString at hcount
  rw [List.countP_append, List.countP_cons, List.countP_append, List.countP_append,
      List.countP_cons, List.countP_append, List.countP_cons,
      countP_colon_zero htc, countP_colon_zero hpc] at hcount
  simp only [show (("fdi".toList : Str).countP (fun x => x == ':')) = 0 from rfl,
    show ((':' : Char) == ':') = true from rfl, if_pos] at hcount
  have hfc : ':' ∉ ace.flags := not_colon_of_countP_zero (by omega)
  have hmc : ':' ∉ ace.permissions := not_colon_of_countP_zero (by omega)
  have hfd : ':' ∉ ("fdi".toList ++ ace.flags) := by
    intro hmem
    rcases List.mem_append.mp hmem with hin | hin
    · exact absurd hin (by decide)
    · exact hfc hin
  have hsplit : splitOn ':' (synthAceString ace) =
      [ace.type, "fdi".toList ++ ace.flags, ace.principal, ace.permissions] := by
    unfold synthAceString
    rw [splitOn_sep_cons _ htc,
        show ("fdi".toList ++ ace.flags ++ ':' :: (ace.principal ++ ':' :: ace.permissions) : Str)
          = ("fdi".toList ++ ace.flags) ++ ':' :: (ace.principal ++ ':' :: ace.permissions) from by
            simp [List.append_assoc],
        splitOn_sep_cons _ hfd, splitOn_sep_cons _ hpc, splitOn_not_mem hmc]
  rw [hsplit] at hs
  cases new_ace
  simp only [List.cons.injEq, and_true] at hs
  obtain ⟨h1, h2, h3, h4⟩ := hs
  subst h1 h2 h3 h4
  rfl

/-- The synthesis loop, when no assertion fires, appends exactly one
`fdi`-flagged copy of each allow ACE with a special principal, in order. -/
theorem synthLoop_ok : ∀ (l : List TextAce) (added res : List TextAce),
    synthLoop added l = (res, true) →
    res = added ++
      (l.filter (fun ace => ace.isAllowAce && ace.hasSpecialPrincipal)).map synthRecord := by
  intro l
  induction l with
  | nil =>
    intro added res h
    simp only [synthLoop, Prod.mk.injEq] at h
    simp [h.1.symm]
  | cons a rest ih =>
    intro added res h
    by_cases hc : (a.isAllowAce && a.hasSpecialPrincipal) = true
    · rw [synthLoop, if_pos hc] at h
      cases hpa : TextAce.parse (synthAceString a) with
      | none =>
        rw [hpa] at h
        simp at h
      | some na =>
        rw [hpa] at h
        have hres := ih (added ++ [na]) res h
        have hna : na = synthRecord a :=
          parse_synth (Bool.and_eq_true_iff.mp hc).1 (Bool.and_eq_true_iff.mp hc).2 hpa
        rw [hres, hna]
        simp [List.filter_cons, hc, List.append_assoc]
    · rw [synthLoop, if_neg hc] at h
      rw [ih added res h]
      simp [List.filter_cons, hc]

/-- State after a successful conversion: the original ACEs are untouched and
the added list gains exactly the synthesized ACEs. -/
theorem convert_ok_true_state {acl res : Acl} (h : Acl.convert acl = (res, .ok true)) :
    res.aces = acl.aces ∧
    res.added_aces = acl.added_aces ++
      (acl.aces.filter (fun ace => ace.isAllowAce && ace.hasSpecialPrincipal)).map synthRecord := by
  unfold Acl.convert at h
  by_cases h1 : acl.aces.countP (fun ace => ace.hasInheritanceFlag) = 0
  · rw [if_pos h1] at h; simp at h
  rw [if_neg h1] at h
  by_cases h2 : acl.coveredCount = SPECIAL_PRINCIPALS.length
  · rw [if_pos h2] at h; simp at h
  rw [if_neg h2] at h
  by_cases h3 : 0 < acl.coveredCount
  · rw [if_pos h3] at h; simp at h
  rw [if_neg h3] at h
  cases hf : SPECIAL_PRINCIPALS.find? (fun principal => tooManyRules acl principal) with
  | some p => rw [hf] at h; simp at h
  | none =>
    rw [hf] at h
    cases hsl : synthLoop acl.added_aces acl.aces with
    | mk added b =>
      rw [hsl] at h
      cases b
      · simp at h
      · simp only [Prod.mk.injEq] at h
        rcases h with ⟨hres, -⟩
        subst hres
        exact ⟨rfl, synthLoop_ok acl.aces acl.added_aces added hsl⟩

/-- C1: for every ACE list accepted by the conversion, each allow ACE with a
special principal yields exactly one synthesized ACE with the same type,
principal and permissions and with flags "fdi" prepended to the original
flags, appended to the added list in the original relative order; on the
five-line docstring example the three expected ACEs are appended after the
five originals, in that order. -/
theorem convert_synthesizes_fdi_aces :
    (∀ (acl res : Acl), Acl.convert acl = (res, .ok true) →
      res.aces = acl.aces ∧
      res.added_aces = acl.added_aces ++
        (acl.aces.filter (fun ace => ace.isAllowAce && ace.hasSpecialPrincipal)).map synthRecord) ∧
    Acl.parse exampleText = .ok ⟨exampleAces, []⟩ ∧
    (Acl.mk exampleAces []).convert = (⟨exampleAces, exampleAddedAces⟩, .ok true) ∧
    Acl.toString ⟨exampleAces, exampleAddedAces⟩ = exampleText ++ exampleAddedText :=
  ⟨fun _ _ h => convert_ok_true_state h, by decide, by decide, by decide⟩

theorem convert_synthesizes_fdi_aces_witness :
    (Acl.mk exampleAces exampleAddedAces).aces = (Acl.mk exampleAces []).aces ∧
    (Acl.mk exampleAces exampleAddedAces).added_aces =
      (Acl.mk exampleAces []).added_aces ++
        ((Acl.mk exampleAces []).aces.filter
          (fun ace => ace.isAllowAce && ace.hasSpecialPrincipal)).map synthRecord :=
  convert_synthesizes_fdi_aces.1 (Acl.mk exampleAces []) (Acl.mk exampleAces exampleAddedAces)
    (by decide)

theorem countP_inh_pos_of_covered {acl : Acl} (h : 0 < acl.coveredCount) :
    0 < acl.aces.countP (fun ace => ace.hasInheritanceFlag) := by
  unfold Acl.coveredCount at h
  rw [List.length_pos] at h
  obtain ⟨p, hp⟩ := List.exists_mem_of_ne_nil _ h
  rw [List.mem_filter] at hp
  have hdec := hp.2
  rw [decide_eq_true_eq] at hdec
  obtain ⟨ace, hmem, hpred⟩ := List.countP_pos_iff.mp hdec
  rw [List.countP_pos_iff]
  exact ⟨ace, hmem, (Bool.and_eq_true_iff.mp hpred).1⟩

/-- C2: an ACE list in which exactly one or exactly two of the three special
principals have an inheritance-flagged ACE makes `Acl.convert` raise the
partial-coverage RuleViolation, leaving the ACL unchanged, rather than
returning unchanged or converted. -/
theorem partial_coverage_raises (acl : Acl)
    (h : acl.coveredCount = 1 ∨ acl.coveredCount = 2) :
    acl.convert = (acl, .error (.ruleViolation inheritanceErrMsg)) := by
  have hpos : 0 < acl.coveredCount := by rcases h with h | h <;> omega
  have hne : acl.coveredCount ≠ SPECIAL_PRINCIPALS.length := by
    have hlen : SPECIAL_PRINCIPALS.length = 3 := rfl
    rw [hlen]
    rcases h with h | h <;> omega
  have hinh : ¬ acl.aces.countP (fun ace => ace.hasInheritanceFlag) = 0 := by
    have := countP_inh_pos_of_covered hpos
    omega
  unfold Acl.convert
  rw [if_neg hinh, if_neg hne, if_pos hpos]

def c2Acl : Acl := ⟨[⟨"A".toList, "f".toList, "OWNER@".toList, "r".toList⟩], []⟩

theorem partial_coverage_raises_witness :
    c2Acl.convert = (c2Acl, .error (.ruleViolation inheritanceErrMsg)) :=
  partial_coverage_raises c2Acl (by decide)

/-- C9: when `Acl.convert` raises a RuleViolation (either of the two rule
checks), the ACL state is exactly as before the call: nothing was appended
and serialization still emits exactly the original ACEs. -/
theorem rule_violation_preserves_acl (acl : Acl) (m : Str)
    (h : (acl.convert).2 = .error (.ruleViolation m)) :
    (acl.convert).1 = acl ∧ (acl.convert).1.toString = acl.toString ∧
    (acl.added_aces = [] → (acl.convert).1.added_aces = []) := by
  suffices hs : (acl.convert).1 = acl by
    exact ⟨hs, by rw [hs], fun he => by rw [hs]; exact he⟩
  unfold Acl.convert at h ⊢
  by_cases h1 : acl.aces.countP (fun ace => ace.hasInheritanceFlag) = 0
  · simp [h1]
  rw [if_neg h1] at h ⊢
  by_cases h2 : acl.coveredCount = SPECIAL_PRINCIPALS.length
  · simp [h2]
  rw [if_neg h2] at h ⊢
  by_cases h3 : 0 < acl.coveredCount
  · simp [h3]
  rw [if_neg h3] at h ⊢
  cases hf : SPECIAL_PRINCIPALS.find? (fun principal => tooManyRules acl principal) with
  | some p =>
    rfl
  | none =>
    rw [hf] at h
    cases hsl : synthLoop acl.added_aces acl.aces with
    | mk added b =>
      rw [hsl] at h
      cases b <;> simp at h

theorem rule_violation_preserves_acl_witness :
    (c2Acl.convert).1 = c2Acl ∧ (c2Acl.convert).1.toString = c2Acl.toString ∧
    (c2Acl.added_aces = [] → (c2Acl.convert).1.added_aces = []) :=
  rule_violation_preserves_acl c2Acl inheritanceErrMsg (by decide)

def c4Acl : Acl :=
  ⟨[⟨"A".toList, "".toList, "OWNER@".toList, "r".toList⟩,
    ⟨"A".toList, "".toList, "OWNER@".toList, "w".toList⟩], []⟩

/-- C4 counterexample: zero special-principal inheritance coverage and two
non-inherited allow ACEs for OWNER@, yet `Acl.convert` returns unchanged
(no RuleViolation), because no ACE at all carries an inheritance flag and the
no-inheritance early return fires first. -/
theorem rule_count_needs_inheritance_counterexample :
    Acl.parse "A::OWNER@:r\nA::OWNER@:w\n".toList = .ok c4Acl ∧
    c4Acl.coveredCount = 0 ∧
    tooManyRules c4Acl "OWNER@".toList = true ∧
    c4Acl.convert = (c4Acl, .ok false) := by decide

/-- C4 (amended): if additionally at least one ACE carries an inheritance
flag, then with zero special-principal coverage and some special principal
having more than one non-inherited allow or deny ACE, `Acl.convert` raises
the too-many-rules RuleViolation. -/
theorem too_many_rules_raises (acl : Acl)
    (hinh : 0 < acl.aces.countP (fun ace => ace.hasInheritanceFlag))
    (hcov : acl.coveredCount = 0)
    (hbad : ∃ p ∈ SPECIAL_PRINCIPALS, tooManyRules acl p = true) :
    ∃ q, acl.convert = (acl, .error (.ruleViolation (tooManyErrMsg q))) := by
  have h1 : ¬ acl.aces.countP (fun ace => ace.hasInheritanceFlag) = 0 := by omega
  have h2 : ¬ acl.coveredCount = SPECIAL_PRINCIPALS.length := by
    rw [hcov]
    decide
  have h3 : ¬ 0 < acl.coveredCount := by omega
  have hfind : (SPECIAL_PRINCIPALS.find? (fun principal => tooManyRules acl principal)).isSome := by
    rw [List.find?_isSome]
    obtain ⟨p, hp, ht⟩ := hbad
    exact ⟨p, hp, ht⟩
  obtain ⟨q, hq⟩ := Option.isSome_iff_exists.mp hfind
  refine ⟨q, ?_⟩
  unfold Acl.convert
  rw [if_neg h1, if_neg h2, if_neg h3, hq]

def c4wAcl : Acl :=
  ⟨[⟨"A".toList, "fd".toList, "readers".toList, "r".toList⟩,
    ⟨"A".toList, "".toList, "OWNER@".toList, "r".toList⟩,
    ⟨"A".toList, "".toList, "OWNER@".toList, "w".toList⟩], []⟩

theorem too_many_rules_raises_witness :
    ∃ q, c4wAcl.convert = (c4wAcl, .error (.ruleViolation (tooManyErrMsg q))) :=
  too_many_rules_raises c4wAcl (by decide) (by decide)
    ⟨"OWNER@".toList, by decide, by decide⟩

def c5Acl : Acl := ⟨[⟨"A".toList, "fd".toList, "readers".toList, "rxtncy".toList⟩], []⟩

/-- C5: the idempotence law fails on the code: this ACL (one
inheritance-flagged ACE for a non-special principal, no special-principal
ACEs) is converted with nothing added, and re-applying `Acl.convert` to the
combined result list returns converted again rather than unchanged. -/
theorem convert_not_idempotent :
    Acl.parse "A:fd:readers:rxtncy\n".toList = .ok c5Acl ∧
    c5Acl.convert = (c5Acl, .ok true) ∧
    (Acl.mk (c5Acl.aces ++ c5Acl.added_aces) []).convert
      = (Acl.mk (c5Acl.aces ++ c5Acl.added_aces) [], .ok true) := by decide

def c10Env : Env where
  islink := fun _ => false
  isdir := fun _ => true
  getfacl := fun _ => .ok "A:fd:readers:rxtncy\n".toList
  dry_run := true
  setfacl := fun _ _ => .ok ()

def c10Path : Str := "/volume/dir".toList

/-- C10: an ACE list with an inheritance-flagged ACE, no special-principal
coverage, passing rule counts and containing no allow ACE with a special
principal is converted with zero appended ACEs; its serialization equals the
original's, yet the path is treated as converted and printed in dry-run
mode. -/
theorem converted_with_nothing_added :
    c5Acl.convert = (c5Acl, .ok true) ∧
    c5Acl.added_aces = [] ∧
    Acl.toString c5Acl = "A:fd:readers:rxtncy\n".toList ∧
    processEntry c10Env c10Path = (true, [.logMsg (c10Path ++ linesep :: Acl.toString c5Acl)]) := by
  decide

def c6Line : Str := "A::OWNER@:rwx".toList

def c6Ace : TextAce := ⟨"A".toList, "".toList, "OWNER@".toList, "rwx".toList⟩

/-- C6 counterexample: serializing the parse of this line yields the line
followed by the line terminator, not the line itself. -/
theorem serialize_parse_counterexample :
    TextAce.parse c6Line = some c6Ace ∧ c6Ace.toString ≠ c6Line := by decide

/-- C6 (amended): for every line the parser accepts, serialization
reproduces the line followed by the line terminator, bit-exact with the
parse format. -/
theorem serialize_parse_roundtrip (line : Str) (ace : TextAce)
    (h : TextAce.parse line = some ace) : ace.toString = line ++ [linesep] :=
  parse_toString h

theorem serialize_parse_roundtrip_witness : c6Ace.toString = c6Line ++ [linesep] :=
  serialize_parse_roundtrip c6Line c6Ace (by decide)

/-- C3 counterexample: a parseable input with no inheritance-flagged ACE on
which `Acl.convert` does return unchanged, but whose serialization is not
byte-identical to the parsed input text (the input lacks the trailing line
terminator that serialization emits). -/
theorem unchanged_serialization_counterexample :
    Acl.parse c6Line = .ok (Acl.mk [c6Ace] []) ∧
    (Acl.mk [c6Ace] []).aces.countP (fun ace => ace.hasInheritanceFlag) = 0 ∧
    (Acl.mk [c6Ace] []).convert = (Acl.mk [c6Ace] [], .ok false) ∧
    Acl.toString (Acl.mk [c6Ace] []) ≠ c6Line := by decide

/-- A text made of ACE lines, each followed by the line terminator. -/
def linesText (lines : List Str) : Str :=
  (lines.map (fun line => line ++ [linesep])).flatten

theorem splitOn_linesText (lines : List Str) (h : ∀ l ∈ lines, linesep ∉ l) :
    splitOn linesep (linesText lines) = lines ++ [[]] := by
  induction lines with
  | nil => rfl
  | cons l ls ih =>
    have hl : linesep ∉ l := h l (List.mem_cons_self l ls)
    have hls : ∀ x ∈ ls, linesep ∉ x := fun x hx => h x (List.mem_cons_of_mem l hx)
    simp only [linesText, List.map_cons, List.flatten_cons, List.append_assoc,
      List.singleton_append]
    rw [splitOn_sep_cons _ hl]
    simp only [linesText] at ih
    rw [ih hls]
    rfl

theorem parseAces_wf : ∀ (lines : List Str), (∀ l ∈ lines, (TextAce.parse l).isSome) →
    ∃ aces, parseAces lines = some aces ∧
      (aces.map TextAce.toString).flatten = linesText lines := by
  intro lines
  induction lines with
  | nil => exact fun _ => ⟨[], rfl, rfl⟩
  | cons l ls ih =>
    intro h
    obtain ⟨a, ha⟩ := Option.isSome_iff_exists.mp (h l (List.mem_cons_self l ls))
    obtain ⟨aces, hp, hts⟩ := ih (fun x hx => h x (List.mem_cons_of_mem l hx))
    refine ⟨a :: aces, ?_, ?_⟩
    · simp [parseAces, ha, hp]
    · simp only [List.map_cons, List.flatten_cons, hts, linesText, parse_toString ha]

/-- C3 (amended): for every list of well-formed terminated ACE lines, parsing
succeeds, serialization is byte-identical to the input text (each original
ACE line followed by the line terminator), and if no ACE has an inheritance
flag, `Acl.convert` returns unchanged. -/
theorem unchanged_roundtrip (lines : List Str)
    (hwf : ∀ l ∈ lines,
      l ≠ [] ∧ l.head? ≠ some '#' ∧ linesep ∉ l ∧ (TextAce.parse l).isSome) :
    ∃ acl, Acl.parse (linesText lines) = .ok acl ∧
      Acl.toString acl = linesText lines ∧
      (acl.aces.countP (fun ace => ace.hasInheritanceFlag) = 0 →
        acl.convert = (acl, .ok false)) := by
  have hsplit := splitOn_linesText lines (fun l hl => (hwf l hl).2.2.1)
  have hfilter : (splitOn linesep (linesText lines)).filter
      (fun line => !line.isEmpty && !(line.head? == some '#')) = lines := by
    rw [hsplit, List.filter_append]
    have hemp : List.filter (fun line => !line.isEmpty && !(line.head? == some '#'))
        ([([] : Str)]) = [] := rfl
    rw [hemp, List.append_nil, List.filter_eq_self]
    intro l hl
    obtain ⟨hne, hhash, -, -⟩ := hwf l hl
    simp only [Bool.and_eq_true, Bool.not_eq_true']
    constructor
    · cases l with
      | nil => exact absurd rfl hne
      | cons x xs => rfl
    · rw [beq_eq_false_iff_ne]
      exact hhash
  obtain ⟨aces, hp, hts⟩ := parseAces_wf lines (fun l hl => (hwf l hl).2.2.2)
  refine ⟨⟨aces, []⟩, ?_, ?_, ?_⟩
  · unfold Acl.parse
    rw [hfilter, hp]
  · unfold Acl.toString
    simp [hts]
  · intro h0
    unfold Acl.convert
    rw [if_pos h0]

theorem unchanged_roundtrip_witness :
    ∃ acl, Acl.parse (linesText ["A::OWNER@:rwx".toList]) = .ok acl ∧
      Acl.toString acl = linesText ["A::OWNER@:rwx".toList] ∧
      (acl.aces.countP (fun ace => ace.hasInheritanceFlag) = 0 →
        acl.convert = (acl, .ok false)) :=
  unchanged_roundtrip ["A::OWNER@:rwx".toList] (by decide)

def c7Env : Env where
  islink := fun _ => false
  isdir := fun _ => true
  getfacl := fun _ => .ok "A:f:OWNER@:r\n".toList
  dry_run := true
  setfacl := fun _ _ => .ok ()

/-- C7 counterexample: a real non-symlink directory whose ACL makes the rule
engine raise a RuleViolation; `processEntry` reports the error but returns
not-expandable (false), not true. -/
theorem rule_violation_not_expandable_counterexample :
    c7Env.islink c10Path = false ∧ c7Env.isdir c10Path = true ∧
    processEntry c7Env c10Path = (false, [.errorMsg c10Path inheritanceErrMsg]) := by decide

/-- C7 (amended): for a real non-symlink directory, `processEntry` returns
expandable exactly when ACL processing raises no exception; when the rule
engine raises a RuleViolation the error is reported with the path and the
message, and `processEntry` returns not-expandable (false), so the
directory's children are not enumerated. -/
theorem processEntry_expandable (env : Env) (path : Str)
    (hl : env.islink path = false) (hd : env.isdir path = true) :
    (∀ outs, processDirectory env path = .ok outs → processEntry env path = (true, outs)) ∧
    (∀ out acl m, env.getfacl path = .ok out → Acl.parse out = .ok acl →
      (acl.convert).2 = .error (.ruleViolation m) →
      processEntry env path = (false, [.errorMsg path m])) := by
  constructor
  · intro outs hok
    simp [processEntry, hl, hd, hok]
  · intro out acl m hg hp hc
    have hpd : processDirectory env path = .error (.ruleViolation m) := by
      rcases hcv : acl.convert with ⟨a2, r⟩
      rw [hcv] at hc
      have hr : r = .error (.ruleViolation m) := hc
      subst hr
      simp [processDirectory, hg, hp, hcv]
    simp [processEntry, hl, hd, hpd, AclError.message]

theorem processEntry_expandable_witness :
    processEntry c7Env c10Path = (false, [.errorMsg c10Path inheritanceErrMsg]) :=
  (processEntry_expandable c7Env c10Path rfl rfl).2 "A:f:OWNER@:r\n".toList
    (Acl.mk [⟨"A".toList, "f".toList, "OWNER@".toList, "r".toList⟩] [])
    inheritanceErrMsg rfl (by decide) (by decide)

def c8Env : Env where
  islink := fun _ => false
  isdir := fun _ => true
  getfacl := fun _ => .error "command not found".toList
  dry_run := true
  setfacl := fun _ _ => .ok ()

/-- C8 counterexample: a real non-symlink directory whose ACL fetch fails;
`processEntry` reports the error with path and message but returns
expandable (true), not not-expandable. -/
theorem fetch_failure_counterexample :
    c8Env.islink c10Path = false ∧ c8Env.isdir c10Path = true ∧
    processEntry c8Env c10Path =
      (true, [.errorMsg c10Path
        ("Failed to run nfs4_getfacl: ".toList ++ "command not found".toList)]) := by decide

/-- C8 (amended): for a real non-symlink directory whose ACL fetch fails,
`processEntry` reports the error with the path and the fetch message and
still returns expandable (true). -/
theorem fetch_failure_reports_and_expands (env : Env) (path errtext : Str)
    (hl : env.islink path = false) (hd : env.isdir path = true)
    (hg : env.getfacl path = .error errtext) :
    processEntry env path =
      (true, [.errorMsg path ("Failed to run nfs4_getfacl: ".toList ++ errtext)]) := by
  simp [processEntry, processDirectory, hl, hd, hg]

theorem fetch_failure_reports_and_expands_witness :
    processEntry c8Env c10Path =
      (true, [.errorMsg c10Path
        ("Failed to run nfs4_getfacl: ".toList ++ "command not found".toList)]) :=
  fetch_failure_reports_and_expands c8Env c10Path "command not found".toList rfl rfl rfl
